import Mathlib

/-!
# brokerserver: the signed-request client of `server.go`

A shallow embedding of `server.go` (package `main`): the random-string
helper, the credential signer, the HTTP client, the time proxy and the
audit-log proxy.

Conventions of the embedding.

* A Go `string` is a Lean `String`; where the program hands a string to a
  byte sink (the hash), its UTF-8 bytes are taken (`utf8Bytes`).
* A Go `int` is a Lean `Int` kept in the 64-bit range by `wrapInt` after
  every addition or subtraction.
* A Go `error` is an `Option Err` (`none` is `nil`).
* The process-wide state the methods touch is a `World`: the shared
  generator `seededRand`, the log of the requests handed to the HTTP client
  so far, and the outcome the network gives to each exchange.
* The receivers `NinRandom`, `NinCredential`, `NinHttpClient` carry no data
  the behaviour depends on (two empty structs and a timeout), so methods are
  functions of their arguments and of the `World`.
* The standard-library functions the program calls (`strings.Trim`,
  `strings.TrimSpace`, `strings.Split`, `strconv.Atoi`, `fmt.Fprintf`,
  `sha256`, `base64`, `rand.Intn`) are embedded from their documented
  behaviour, each under its Go name.
-/

namespace Server

/-! ## Standard library: bytes, hashing, encoding -/

/-- UTF-8 encoding of one character, as a list of byte values. -/
def utf8Char (c : Char) : List Nat :=
  let n := c.toNat
  if n < 0x80 then [n]
  else if n < 0x800 then [0xC0 + n / 64, 0x80 + n % 64]
  else if n < 0x10000 then [0xE0 + n / 4096, 0x80 + n / 64 % 64, 0x80 + n % 64]
  else [0xF0 + n / 262144, 0x80 + n / 4096 % 64, 0x80 + n / 64 % 64, 0x80 + n % 64]

/-- The bytes of a Go string. -/
def utf8Bytes (s : String) : List Nat := s.data.flatMap utf8Char

namespace sha256

/-- Round constants of SHA-256 (FIPS 180-4, section 4.2.2). -/
def K : List Nat := [
  0x428a2f98, 0x71374491, 0xb5c0fbcf, 0xe9b5dba5, 0x3956c25b, 0x59f111f1, 0x923f82a4, 0xab1c5ed5,
  0xd807aa98, 0x12835b01, 0x243185be, 0x550c7dc3, 0x72be5d74, 0x80deb1fe, 0x9bdc06a7, 0xc19bf174,
  0xe49b69c1, 0xefbe4786, 0x0fc19dc6, 0x240ca1cc, 0x2de92c6f, 0x4a7484aa, 0x5cb0a9dc, 0x76f988da,
  0x983e5152, 0xa831c66d, 0xb00327c8, 0xbf597fc7, 0xc6e00bf3, 0xd5a79147, 0x06ca6351, 0x14292967,
  0x27b70a85, 0x2e1b2138, 0x4d2c6dfc, 0x53380d13, 0x650a7354, 0x766a0abb, 0x81c2c92e, 0x92722c85,
  0xa2bfe8a1, 0xa81a664b, 0xc24b8b70, 0xc76c51a3, 0xd192e819, 0xd6990624, 0xf40e3585, 0x106aa070,
  0x19a4c116, 0x1e376c08, 0x2748774c, 0x34b0bcb5, 0x391c0cb3, 0x4ed8aa4a, 0x5b9cca4f, 0x682e6ff3,
  0x748f82ee, 0x78a5636f, 0x84c87814, 0x8cc70208, 0x90befffa, 0xa4506ceb, 0xbef9a3f7, 0xc67178f2]

/-- Initial hash value of SHA-256 (FIPS 180-4, section 5.3.3). -/
def init : List Nat :=
  [0x6a09e667, 0xbb67ae85, 0x3c6ef372, 0xa54ff53a, 0x510e527f, 0x9b05688c, 0x1f83d9ab, 0x5be0cd19]

/-- Reduction to a 32-bit word. -/
def w32 (x : Nat) : Nat := x % 2 ^ 32

/-- Rotation to the right of a 32-bit word. -/
def rotr (x n : Nat) : Nat := w32 ((x >>> n) ||| (x <<< (32 - n)))

def ssig0 (x : Nat) : Nat := rotr x 7 ^^^ rotr x 18 ^^^ (x >>> 3)

def ssig1 (x : Nat) : Nat := rotr x 17 ^^^ rotr x 19 ^^^ (x >>> 10)

def bsig0 (x : Nat) : Nat := rotr x 2 ^^^ rotr x 13 ^^^ rotr x 22

def bsig1 (x : Nat) : Nat := rotr x 6 ^^^ rotr x 11 ^^^ rotr x 25

def ch (x y z : Nat) : Nat := (x &&& y) ^^^ ((x ^^^ 0xffffffff) &&& z)

def maj (x y z : Nat) : Nat := (x &&& y) ^^^ (x &&& z) ^^^ (y &&& z)

/-- Big-endian 32-bit words of a byte list whose length is a multiple of 4. -/
def words : List Nat → List Nat
  | a :: b :: c :: d :: rest => (a * 2 ^ 24 + b * 2 ^ 16 + c * 2 ^ 8 + d) :: words rest
  | _ => []

/-- Message schedule kept newest word first, grown by `n` words. -/
def extend : Nat → List Nat → List Nat
  | 0, ws => ws
  | n + 1, ws =>
    extend n (w32 (ssig1 (ws.getD 1 0) + ws.getD 6 0 + ssig0 (ws.getD 14 0) + ws.getD 15 0) :: ws)

/-- One round of the compression function on the eight working variables. -/
def round (s : List Nat) (kw : Nat × Nat) : List Nat :=
  match s with
  | [a, b, c, d, e, f, g, h] =>
    let t1 := h + bsig1 e + ch e f g + kw.1 + kw.2
    let t2 := bsig0 a + maj a b c
    [w32 (t1 + t2), a, b, c, w32 (d + t1), e, f, g]
  | _ => s

/-- Compression of one 64-byte block into the running hash value. -/
def block (h : List Nat) (blk : List Nat) : List Nat :=
  let ws := (extend 48 (words blk).reverse).reverse
  List.zipWith (fun x y => w32 (x + y)) h ((K.zip ws).foldl round h)

/-- The `k` low-order bytes of `n`, most significant first. -/
def be (n : Nat) : Nat → List Nat
  | 0 => []
  | k + 1 => (n / 256 ^ k) % 256 :: be n k

/-- Padding: a one bit, zeros, and the message length in bits on 64 bits. -/
def pad (msg : List Nat) : List Nat :=
  msg ++ 0x80 :: List.replicate ((119 - msg.length % 64) % 64) 0 ++ be (8 * msg.length % 2 ^ 64) 8

/-- Compression of the first `n` blocks of `bs`. -/
def blocks : Nat → List Nat → List Nat → List Nat
  | 0, h, _ => h
  | n + 1, h, bs => blocks n (block h (bs.take 64)) (bs.drop 64)

/-- The 32-byte SHA-256 digest of a byte sequence (`sha256.Sum256`). -/
def Sum256 (msg : List Nat) : List Nat :=
  let p := pad msg
  (blocks (p.length / 64) init p).flatMap (fun w => be w 4)

/-- The running hash `sha256.New()` returns: the digest depends on the
concatenation of everything written, which is what the state records. -/
structure digest where
  written : List Nat

/-- Go `sha256.New()`. -/
def New : digest := ⟨[]⟩

/-- Go `(hash.Hash).Write(p)`: appends to the hashed input, never fails. -/
def digest.Write (h : digest) (p : List Nat) : digest := ⟨h.written ++ p⟩

/-- Go `(hash.Hash).Sum(b)`: appends the digest of the input written so far to `b`. -/
def digest.Sum (h : digest) (b : List Nat) : List Nat := b ++ Sum256 h.written

end sha256

namespace base64

/-- The alphabet of `base64.StdEncoding`. -/
def encodeStd : String := "ABCDEFGHIJKLMNOPQRSTUVWXYZabcdefghijklmnopqrstuvwxyz0123456789+/"

/-- The character of a 6-bit value. -/
def sextet (n : Nat) : Char := encodeStd.data.getD n '='

/-- Encoding of a byte list, three bytes to four characters, padded with `=`. -/
def encode : List Nat → List Char
  | a :: b :: c :: rest =>
    sextet (a / 4) :: sextet (a % 4 * 16 + b / 16) :: sextet (b % 16 * 4 + c / 64)
      :: sextet (c % 64) :: encode rest
  | [a, b] => [sextet (a / 4), sextet (a % 4 * 16 + b / 16), sextet (b % 16 * 4), '=']
  | [a] => [sextet (a / 4), sextet (a % 4 * 16), '=', '=']
  | [] => []

/-- Go `base64.StdEncoding.EncodeToString`. -/
def EncodeToString (src : List Nat) : String := ⟨encode src⟩

end base64

namespace fmt

/-- Expansion of a format: each `%s` verb takes the next operand; a verb
without operand prints as Go does; every other character is copied. Only the
`%s` verb is covered, the one the program uses. -/
def expand : List Char → List String → List Char
  | [], _ => []
  | '%' :: 's' :: rest, a :: args => a.data ++ expand rest args
  | '%' :: 's' :: rest, [] => "%!s(MISSING)".data ++ expand rest []
  | c :: rest, args => c :: expand rest args

/-- Go `fmt.Sprintf` for formats made of text and `%s` verbs. -/
def Sprintf (format : String) (args : List String) : String := ⟨expand format.data args⟩

/-- Go `fmt.Fprintf(h, format, args...)` on a hash: the formatted text is
written to `h` in one `Write`. -/
def Fprintf (h : sha256.digest) (format : String) (args : List String) : sha256.digest :=
  h.Write (utf8Bytes (Sprintf format args))

end fmt

/-! ## Standard library: errors, strings, numbers, random numbers -/

/-- The error values the program can meet: a failure of the HTTP exchange
(marshalling, connection, timeout, body read), and the two errors of
`strconv.Atoi` (not a number, number out of range). -/
inductive Err where
  | net (msg : String)
  | badNumber
  | outOfRange
  deriving DecidableEq

/-- Reduction of an integer to the range of a 64-bit Go `int`. -/
def wrapInt (x : Int) : Int := (x + 2 ^ 63) % 2 ^ 64 - 2 ^ 63

/-- Largest Go `int`. -/
def maxInt : Int := 2 ^ 63 - 1

/-- Smallest Go `int`. -/
def minInt : Int := -(2 ^ 63)

namespace unicode

/-- Go `unicode.IsSpace`: the Latin-1 spaces `\t \n \v \f \r`, space, U+0085,
U+00A0, and beyond Latin-1 the characters with the White_Space property. -/
def IsSpace (r : Char) : Bool :=
  let n := r.toNat
  (9 ≤ n && n ≤ 13) || n == 0x20 || n == 0x85 || n == 0xA0 || n == 0x1680
    || (0x2000 ≤ n && n ≤ 0x200A) || n == 0x2028 || n == 0x2029 || n == 0x202F
    || n == 0x205F || n == 0x3000

end unicode

namespace strings

/-- Removal of the leading and trailing characters that satisfy `f`
(Go `strings.TrimFunc`). -/
def trimBoth (f : Char → Bool) (s : List Char) : List Char :=
  ((s.dropWhile f).reverse.dropWhile f).reverse

/-- Go `strings.Trim(s, cutset)`: `s` without the leading and trailing
characters contained in `cutset`. -/
def Trim (s cutset : String) : String := ⟨trimBoth (fun c => cutset.data.elem c) s.data⟩

/-- Go `strings.TrimSpace(s)`: `s` without leading and trailing white space. -/
def TrimSpace (s : String) : String := ⟨trimBoth unicode.IsSpace s.data⟩

/-- The pieces of `s` between the occurrences of a non-empty separator, found
left to right without overlap. `skip` counts the characters of a matched
separator still to pass over, `piece` is the current piece, reversed. -/
def cut (sep : List Char) : List Char → Nat → List Char → List (List Char)
  | [], _, piece => [piece.reverse]
  | _ :: cs, skip + 1, piece => cut sep cs skip piece
  | c :: cs, 0, piece =>
    if sep.isPrefixOf (c :: cs) then piece.reverse :: cut sep cs (sep.length - 1) []
    else cut sep cs 0 (c :: piece)

/-- Go `strings.Split(s, sep)`: with an empty separator the characters of `s`
one by one, otherwise the substrings between the separators. -/
def Split (s sep : String) : List String :=
  if sep.data = [] then s.data.map String.singleton
  else (cut sep.data s.data 0 []).map String.mk

end strings

namespace strconv

/-- Largest `uint64`. -/
def maxUint64 : Nat := 2 ^ 64 - 1

/-- The digit loop of Go `strconv.ParseUint(s, 10, 64)`: a character that is
not a decimal digit gives `(0, badNumber)`; a value that leaves the 64-bit
range gives `(maxUint64, outOfRange)`; whichever comes first in the text. -/
def parseDigits : List Char → Nat → Nat × Option Err
  | [], n => (n, none)
  | c :: cs, n =>
    if c.toNat < 48 ∨ 57 < c.toNat then (0, some Err.badNumber)
    else if maxUint64 / 10 + 1 ≤ n then (maxUint64, some Err.outOfRange)
    else if maxUint64 < n * 10 + (c.toNat - 48) then (maxUint64, some Err.outOfRange)
    else parseDigits cs (n * 10 + (c.toNat - 48))

/-- Go `strconv.ParseUint(s, 10, 64)`. -/
def ParseUint (s : List Char) : Nat × Option Err :=
  match s with
  | [] => (0, some Err.badNumber)
  | _ => parseDigits s 0

/-- Go `strconv.ParseInt(s, 10, 0)` with a 64-bit `int`: an optional sign,
then `ParseUint`; a value out of range is returned clamped, with the error. -/
def ParseInt (s : String) : Int × Option Err :=
  match s.data with
  | [] => (0, some Err.badNumber)
  | c :: cs =>
    let neg := c = '-'
    let r := ParseUint (if c = '+' ∨ c = '-' then cs else c :: cs)
    if r.2 = some Err.badNumber then (0, r.2)
    else if ¬ neg ∧ 2 ^ 63 ≤ r.1 then (maxInt, some Err.outOfRange)
    else if neg ∧ 2 ^ 63 < r.1 then (minInt, some Err.outOfRange)
    else (if neg then -(r.1 : Int) else (r.1 : Int), none)

/-- Go `strconv.Atoi(s)`: `ParseInt(s, 10, 0)` converted to `int` (its fast
path for short inputs computes the same result). -/
def Atoi (s : String) : Int × Option Err := ParseInt s

end strconv

namespace rand

/-- A `*rand.Rand`: the sequence of raw values the generator will produce
from its seed, and how many have been consumed. Every behaviour of the
generator is one such sequence. -/
structure Rand where
  raw : Nat → Nat
  pos : Nat

/-- Go `(*rand.Rand).Intn(n)` for `n > 0`: a value in `[0, n)`, the generator
advanced by one draw. -/
def Rand.Intn (r : Rand) (n : Nat) : Nat × Rand := (r.raw r.pos % n, { r with pos := r.pos + 1 })

end rand

/-! ## The program: constants and state -/

def base : String := "https://ji.luupi.net"

def audit : String := "/652/audit"

def clock : String := "/652/clock"

def access : String := "/652/access"

def secret : String := "galumphing"

def charset : String := "abcdefghijklmnopqrstuvwxyzABCDEFGHIJKLMNOPQRSTUVWXYZ0123456789"

/-- A value of the payload map (`interface{}`): the program stores strings
and ints only. -/
inductive Value where
  | str (s : String)
  | int (n : Int)
  deriving DecidableEq

/-- The request envelope, a `map[string]interface{}` given by its entries. -/
abbrev Payload := List (String × Value)

/-- One call of the HTTP client: the URL posted to and the envelope. -/
structure Request where
  url : String
  payload : Payload
  deriving DecidableEq

/-- The value of a field of the envelope. -/
def Request.field (r : Request) (key : String) : Option Value := r.payload.lookup key

/-- The path of the URL a request is posted to: what follows `base`. -/
def Request.path (r : Request) : String := ⟨r.url.data.drop base.data.length⟩

/-- The state the methods run in: the process-wide generator `seededRand`,
the requests handed to the HTTP client so far (oldest first), and for each
exchange, by its position in the run, what the network and the upstream make
of it: a response body, or a failure. -/
structure World where
  seededRand : rand.Rand
  sent : List Request
  network : Nat → Except Err String

/-! ## NinRandom -/

/-- The loop of `getRandomString`: `b[i] = charset[seededRand.Intn(len)]` for
each of the `length` positions, in order. -/
def NinRandom.fill : Nat → rand.Rand → List Char × rand.Rand
  | 0, r => ([], r)
  | k + 1, r =>
    let d := r.Intn charset.length
    let rest := NinRandom.fill k d.2
    (charset.data.getD d.1 'a' :: rest.1, rest.2)

/-- The method `NinRandom.getRandomString(length)`, for `length ≥ 0`. -/
def NinRandom.getRandomString (length : Nat) (w : World) : String × World :=
  let r := NinRandom.fill length w.seededRand
  (⟨r.1⟩, { w with seededRand := r.2 })

/-! ## NinHttpClient -/

/-- What `getResponse` returns for an outcome of the exchange: `(body, nil)`
for a response, `("", err)` for a failure. -/
def NinHttpClient.result : Except Err String → String × Option Err
  | .ok body => (body, none)
  | .error e => ("", some e)

/-- The method `NinHttpClient.getResponse(url, payload)`: the request is
handed to the HTTP client; a response of any status gives `(body, nil)`, any
failure gives `("", err)`. -/
def NinHttpClient.getResponse (url : String) (payload : Payload) (w : World) :
    (String × Option Err) × World :=
  let w1 : World := { w with sent := w.sent ++ [⟨url, payload⟩] }
  (NinHttpClient.result (w.network w.sent.length), w1)

/-! ## NinCredential -/

/-- The method `NinCredential.getNonce(nRandom)`. -/
def NinCredential.getNonce (w : World) : String × World := NinRandom.getRandomString 18 w

/-- The method `NinCredential.getSignature(url, act, nonce)`. -/
def NinCredential.getSignature (url act nonce : String) : String :=
  let h := sha256.New
  let h := fmt.Fprintf h "%s\r\n%s\r\n%s\r\n%s" [url, act, nonce, secret]
  let sig := base64.EncodeToString (h.Sum [])
  sig

/-! ## NinTimeProxy -/

/-- First part of the method `NinTimeProxy.begin`: the nonce is drawn and the
envelope built. -/
def NinTimeProxy.beginEnvelope (w : World) : Payload × World :=
  let g := NinCredential.getNonce w
  let nonce := g.1
  let act := "begin"
  let url := access
  ([("Nonce", Value.str nonce), ("Act", Value.str act), ("Timeout", Value.int 250000),
    ("Signature", Value.str (NinCredential.getSignature url act nonce))], g.2)

/-- Second part of the method `NinTimeProxy.begin`: the envelope is posted,
the response and the error are dropped; `done <- true` follows. -/
def NinTimeProxy.beginPost (payload : Payload) (w : World) : World :=
  (NinHttpClient.getResponse (base ++ access) payload w).2

/-- The method `NinTimeProxy.begin(done)` run without interruption. -/
def NinTimeProxy.begin (w : World) : World :=
  let e := NinTimeProxy.beginEnvelope w
  NinTimeProxy.beginPost e.1 e.2

/-- The method `NinTimeProxy.end()`. -/
def NinTimeProxy.end_ (w : World) : (String × Option Err) × World :=
  let g := NinCredential.getNonce w
  let nonce := g.1
  let act := "end"
  let url := access
  let payload : Payload :=
    [("Nonce", Value.str nonce), ("Act", Value.str act), ("Timeout", Value.int 250000),
     ("Signature", Value.str (NinCredential.getSignature url act nonce))]
  let r := NinHttpClient.getResponse (base ++ url) payload g.2
  ((strings.Trim r.1.1 "\n", r.1.2), r.2)

/-- The method `NinTimeProxy.clock()`. -/
def NinTimeProxy.clock (w : World) : Option Err × World :=
  let g := NinCredential.getNonce w
  let nonce := g.1
  let act := "observe"
  let url := Server.clock
  let payload : Payload :=
    [("Nonce", Value.str nonce), ("Act", Value.str act), ("Timeout", Value.int 0),
     ("Signature", Value.str (NinCredential.getSignature url act nonce))]
  let r := NinHttpClient.getResponse (base ++ url) payload g.2
  (r.1.2, r.2)

/-- One run of `HandleServerTime` interleaves the goroutine `begin` with the
warm-up loop. The generator and the HTTP client are shared, so the run is
fixed by how many ticks the loop handles (one `clock()` call each) before the
goroutine draws its nonce, between that draw and its POST, and after its POST
until the loop takes the `done` case (`select` may still pick the ticker
while `done` is ready). Drawing a nonce and making an exchange are the
atomic steps. -/
structure Schedule where
  ticksBefore : Nat
  ticksDuring : Nat
  ticksAfter : Nat

/-- The warm-up loop handling `k` ticks: `clock()` each time, its error
printed and dropped. -/
def NinTimeProxy.warmUp : Nat → World → World
  | 0, w => w
  | k + 1, w => NinTimeProxy.warmUp k (NinTimeProxy.clock w).2

/-- The method `NinTimeProxy.HandleServerTime()` under a schedule: the
goroutine `begin` and the warm-up loop interleaved, then `end()`. -/
def NinTimeProxy.HandleServerTime (s : Schedule) (w : World) : (String × Option Err) × World :=
  let w1 := NinTimeProxy.warmUp s.ticksBefore w
  let e := NinTimeProxy.beginEnvelope w1
  let w2 := NinTimeProxy.warmUp s.ticksDuring e.2
  let w3 := NinTimeProxy.beginPost e.1 w2
  let w4 := NinTimeProxy.warmUp s.ticksAfter w3
  NinTimeProxy.end_ w4

/-! ## NinAuditLogProxy -/

/-- The method `NinAuditLogProxy.getAuditBase()`. -/
def NinAuditLogProxy.getAuditBase (w : World) : (Int × Option Err) × World :=
  let g := NinCredential.getNonce w
  let nonce := g.1
  let act := ""
  let url := audit
  let payload : Payload :=
    [("Nonce", Value.str nonce), ("Act", Value.str act), ("Offset", Value.int 0),
     ("Signature", Value.str (NinCredential.getSignature url act nonce))]
  let r := NinHttpClient.getResponse (base ++ audit) payload g.2
  match r.1.2 with
  | some err => ((0, some err), r.2)
  | none => (strconv.Atoi (strings.TrimSpace r.1.1), r.2)

/-- The method `NinAuditLogProxy.getAuditLog(offsetCount)`. -/
def NinAuditLogProxy.getAuditLog (offsetCount : Int) (w : World) :
    (List String × Option Err) × World :=
  let g := NinCredential.getNonce w
  let nonce := g.1
  let act := "burble"
  let url := audit
  let payload : Payload :=
    [("Nonce", Value.str nonce), ("Act", Value.str act), ("Offset", Value.int offsetCount),
     ("Signature", Value.str (NinCredential.getSignature url act nonce))]
  let r := NinHttpClient.getResponse (base ++ audit) payload g.2
  match r.1.2 with
  | some err => (([], some err), r.2)
  | none => ((strings.Split r.1.1 "\n", none), r.2)

/-- The method `NinAuditLogProxy.resetAuditLog(offsetCount)`; the error of
the exchange is printed and dropped. -/
def NinAuditLogProxy.resetAuditLog (offsetCount : Int) (w : World) : World :=
  let g := NinCredential.getNonce w
  let nonce := g.1
  let act := "chortle"
  let url := audit
  let offsetCount := if offsetCount < 0 then 0 else offsetCount
  let payload : Payload :=
    [("Nonce", Value.str nonce), ("Act", Value.str act), ("Offset", Value.int offsetCount),
     ("Signature", Value.str (NinCredential.getSignature url act nonce))]
  (NinHttpClient.getResponse (base ++ audit) payload g.2).2

/-- The argument `len(auditLogs) + baseOffset - 1` of the reset call, in Go
`int` arithmetic. -/
def NinAuditLogProxy.resetArg (auditLogs : List String) (baseOffset : Int) : Int :=
  wrapInt (wrapInt ((auditLogs.length : Int) + baseOffset) - 1)

/-- The method `NinAuditLogProxy.HandleAuditLogs()`. -/
def NinAuditLogProxy.HandleAuditLogs (w : World) : (List String × Option Err) × World :=
  let b := NinAuditLogProxy.getAuditBase w
  let baseOffset := b.1.1
  let l := NinAuditLogProxy.getAuditLog baseOffset b.2
  let auditLogs := l.1.1
  let w3 := NinAuditLogProxy.resetAuditLog (NinAuditLogProxy.resetArg auditLogs baseOffset) l.2
  ((auditLogs, none), w3)

/-! ## Notions used to state the properties -/

/-- A request is well signed when it is posted to `base` followed by a path
and its `Signature` field is the signature of that path, of its own `Act`
field and of its own `Nonce` field. -/
def Request.wellSigned (r : Request) : Prop :=
  r.url = base ++ r.path ∧
    ∃ a n, r.field "Act" = some (Value.str a) ∧ r.field "Nonce" = some (Value.str n) ∧
      r.field "Signature" = some (Value.str (NinCredential.getSignature r.path a n))

/-- The server time as the specification words it: the body of the `end`
response without its trailing newline, the rest of the body unchanged. -/
def specServerTime (body : String) : String :=
  if body.data.getLast? = some '\n' then ⟨body.data.dropLast⟩ else body

/-- A generator used in the examples. -/
def sampleRand : rand.Rand := ⟨fun i => 7 * i + 3, 0⟩

/-- A fresh process whose exchanges get the listed outcomes, in order, and
fail once the list is used up. -/
def scripted (outcomes : List (Except Err String)) : World :=
  ⟨sampleRand, [], fun k => outcomes.getD k (.error (Err.net "timeout"))⟩

/-! ## Lemmas: the signature format -/

theorem expand_signature_format (url act nonce sec : String) :
    fmt.expand "%s\r\n%s\r\n%s\r\n%s".data [url, act, nonce, sec]
      = url.data ++ '\r' :: '\n' :: (act.data ++ '\r' :: '\n'
          :: (nonce.data ++ '\r' :: '\n' :: (sec.data ++ []))) := by
  rfl

theorem Sprintf_signature_format (url act nonce sec : String) :
    fmt.Sprintf "%s\r\n%s\r\n%s\r\n%s" [url, act, nonce, sec]
      = url ++ "\r\n" ++ act ++ "\r\n" ++ nonce ++ "\r\n" ++ sec := by
  apply String.ext
  unfold fmt.Sprintf
  rw [expand_signature_format]
  simp [String.data_append]

/-- The embedding of SHA-256 and base64 agrees with the reference
implementations on a signature computed outside Lean. -/
theorem getSignature_test_vector :
    NinCredential.getSignature "/652/access" "begin" "aaaaaaaaaaaaaaaaaa"
      = "C0wDBXT4nZrP6dxL74j48KjRwrxvxdxZ0AT5XjaiMl8=" := by
  rfl

/-! ## Lemmas: random strings -/

theorem charset_length : charset.length = 62 := by decide

theorem charset_data_length : charset.data.length = 62 := by decide

theorem charset_alphanum : ∀ c ∈ charset.data, c.isAlphanum = true := by decide

theorem Intn_lt (r : rand.Rand) (n : Nat) (h : 0 < n) : (r.Intn n).1 < n :=
  Nat.mod_lt _ h

theorem fill_length (k : Nat) (r : rand.Rand) : (NinRandom.fill k r).1.length = k := by
  induction k generalizing r with
  | zero => rfl
  | succ k ih => simp [NinRandom.fill, ih]

theorem fill_mem (k : Nat) (r : rand.Rand) :
    ∀ c ∈ (NinRandom.fill k r).1, c ∈ charset.data := by
  induction k generalizing r with
  | zero => intro c hc; simp [NinRandom.fill] at hc
  | succ k ih =>
    intro c hc
    simp only [NinRandom.fill, List.mem_cons] at hc
    rcases hc with hc | hc
    · have hlt : (r.Intn charset.length).1 < charset.data.length := by
        rw [charset_data_length, charset_length]
        exact Intn_lt r 62 (by decide)
      rw [hc, List.getD_eq_getElem _ _ hlt]
      exact List.getElem_mem hlt
    · exact ih _ c hc

/-! ## Lemmas: what a call does to the world -/

theorem getRandomString_sent (L : Nat) (w : World) :
    (NinRandom.getRandomString L w).2.sent = w.sent := rfl

theorem getRandomString_network (L : Nat) (w : World) :
    (NinRandom.getRandomString L w).2.network = w.network := rfl

@[simp]
theorem getNonce_sent (w : World) : (NinCredential.getNonce w).2.sent = w.sent :=
  getRandomString_sent 18 w

@[simp]
theorem getNonce_network (w : World) :
    (NinCredential.getNonce w).2.network = w.network :=
  getRandomString_network 18 w

@[simp]
theorem getResponse_sent (url : String) (p : Payload) (w : World) :
    (NinHttpClient.getResponse url p w).2.sent = w.sent ++ [⟨url, p⟩] := rfl

@[simp]
theorem getResponse_network (url : String) (p : Payload) (w : World) :
    (NinHttpClient.getResponse url p w).2.network = w.network := rfl

@[simp]
theorem getResponse_result (url : String) (p : Payload) (w : World) :
    (NinHttpClient.getResponse url p w).1 = NinHttpClient.result (w.network w.sent.length) := rfl

theorem path_access (p : Payload) : Request.path ⟨base ++ access, p⟩ = access := by
  show (⟨(base ++ access).data.drop base.data.length⟩ : String) = access
  decide

theorem path_clock (p : Payload) : Request.path ⟨base ++ clock, p⟩ = clock := by
  show (⟨(base ++ clock).data.drop base.data.length⟩ : String) = clock
  decide

theorem path_audit (p : Payload) : Request.path ⟨base ++ audit, p⟩ = audit := by
  show (⟨(base ++ audit).data.drop base.data.length⟩ : String) = audit
  decide

/-- An envelope built the way the six builders build it is well signed. -/
theorem wellSigned_envelope (p a n key : String) (t : Int)
    (hp : ∀ q, Request.path ⟨base ++ p, q⟩ = p)
    (hk : key ≠ "Act" ∧ key ≠ "Signature") :
    Request.wellSigned ⟨base ++ p, [("Nonce", Value.str n), ("Act", Value.str a),
      (key, Value.int t), ("Signature", Value.str (NinCredential.getSignature p a n))]⟩ := by
  have h1 : ("Act" == key) = false := by simpa using fun e => hk.1 e.symm
  have h2 : ("Signature" == key) = false := by simpa using fun e => hk.2 e.symm
  refine ⟨?_, a, n, ?_, ?_, ?_⟩
  · rw [hp]
  · simp [Request.field, List.lookup]
  · simp [Request.field, List.lookup]
  · rw [hp]; simp [Request.field, List.lookup, h2]

/-! ## Lemmas: the six request builders -/

theorem beginEnvelope_sent (w : World) : (NinTimeProxy.beginEnvelope w).2.sent = w.sent := by
  simp [NinTimeProxy.beginEnvelope]

theorem beginEnvelope_network (w : World) :
    (NinTimeProxy.beginEnvelope w).2.network = w.network := by
  simp [NinTimeProxy.beginEnvelope]

theorem beginEnvelope_wellSigned (w : World) :
    Request.wellSigned ⟨base ++ access, (NinTimeProxy.beginEnvelope w).1⟩
      ∧ Request.field ⟨base ++ access, (NinTimeProxy.beginEnvelope w).1⟩ "Act"
          = some (Value.str "begin") :=
  ⟨wellSigned_envelope access "begin" _ "Timeout" 250000 path_access (by decide), by
    simp [NinTimeProxy.beginEnvelope, Request.field, List.lookup]⟩

theorem beginPost_sent (p : Payload) (w : World) :
    (NinTimeProxy.beginPost p w).sent = w.sent ++ [⟨base ++ access, p⟩] := by
  simp [NinTimeProxy.beginPost]

theorem beginPost_network (p : Payload) (w : World) :
    (NinTimeProxy.beginPost p w).network = w.network := by
  simp [NinTimeProxy.beginPost]

theorem begin_request (w : World) :
    ∃ req : Request, (NinTimeProxy.begin w).sent = w.sent ++ [req]
      ∧ req.url = base ++ access ∧ req.path = access
      ∧ req.field "Act" = some (Value.str "begin") ∧ req.wellSigned := by
  refine ⟨⟨base ++ access, (NinTimeProxy.beginEnvelope w).1⟩, ?_, rfl, path_access _,
    (beginEnvelope_wellSigned w).2, (beginEnvelope_wellSigned w).1⟩
  simp [NinTimeProxy.begin, beginPost_sent, beginEnvelope_sent]

theorem end_request (w : World) :
    ∃ req : Request, (NinTimeProxy.end_ w).2.sent = w.sent ++ [req]
      ∧ req.url = base ++ access ∧ req.path = access
      ∧ req.field "Act" = some (Value.str "end") ∧ req.wellSigned := by
  have hs : (NinTimeProxy.end_ w).2.sent = w.sent ++ [⟨base ++ access,
      [("Nonce", Value.str (NinCredential.getNonce w).1), ("Act", Value.str "end"),
       ("Timeout", Value.int 250000),
       ("Signature", Value.str
          (NinCredential.getSignature access "end" (NinCredential.getNonce w).1))]⟩] := by
    simp [NinTimeProxy.end_]
  exact ⟨_, hs, rfl, path_access _, by simp [Request.field, List.lookup],
    wellSigned_envelope access "end" _ "Timeout" 250000 path_access (by decide)⟩

theorem end_network (w : World) : (NinTimeProxy.end_ w).2.network = w.network := by
  simp [NinTimeProxy.end_]

theorem end_result (w : World) :
    (NinTimeProxy.end_ w).1
      = (strings.Trim (NinHttpClient.result (w.network w.sent.length)).1 "\n",
          (NinHttpClient.result (w.network w.sent.length)).2) := by
  simp [NinTimeProxy.end_]

theorem clock_request (w : World) :
    ∃ req : Request, (NinTimeProxy.clock w).2.sent = w.sent ++ [req]
      ∧ req.url = base ++ clock ∧ req.path = clock
      ∧ req.field "Act" = some (Value.str "observe") ∧ req.wellSigned := by
  have hs : (NinTimeProxy.clock w).2.sent = w.sent ++ [⟨base ++ clock,
      [("Nonce", Value.str (NinCredential.getNonce w).1), ("Act", Value.str "observe"),
       ("Timeout", Value.int 0),
       ("Signature", Value.str
          (NinCredential.getSignature clock "observe" (NinCredential.getNonce w).1))]⟩] := by
    simp [NinTimeProxy.clock]
  exact ⟨_, hs, rfl, path_clock _, by simp [Request.field, List.lookup],
    wellSigned_envelope clock "observe" _ "Timeout" 0 path_clock (by decide)⟩

theorem clock_network (w : World) : (NinTimeProxy.clock w).2.network = w.network := by
  simp [NinTimeProxy.clock]

theorem getAuditBase_request (w : World) :
    ∃ req : Request, (NinAuditLogProxy.getAuditBase w).2.sent = w.sent ++ [req]
      ∧ req.url = base ++ audit ∧ req.path = audit
      ∧ req.field "Act" = some (Value.str "") ∧ req.wellSigned := by
  have hs : (NinAuditLogProxy.getAuditBase w).2.sent = w.sent ++ [⟨base ++ audit,
      [("Nonce", Value.str (NinCredential.getNonce w).1), ("Act", Value.str ""),
       ("Offset", Value.int 0),
       ("Signature", Value.str (NinCredential.getSignature audit "" (NinCredential.getNonce w).1))]⟩] := by
    cases h : w.network w.sent.length <;>
      simp [NinAuditLogProxy.getAuditBase, h, NinHttpClient.result]
  exact ⟨_, hs, rfl, path_audit _, by simp [Request.field, List.lookup],
    wellSigned_envelope audit "" _ "Offset" 0 path_audit (by decide)⟩

theorem getAuditBase_network (w : World) :
    (NinAuditLogProxy.getAuditBase w).2.network = w.network := by
  cases h : w.network w.sent.length <;>
    simp [NinAuditLogProxy.getAuditBase, h, NinHttpClient.result]

theorem getAuditLog_request (offsetCount : Int) (w : World) :
    ∃ req : Request, (NinAuditLogProxy.getAuditLog offsetCount w).2.sent = w.sent ++ [req]
      ∧ req.url = base ++ audit ∧ req.path = audit
      ∧ req.field "Act" = some (Value.str "burble")
      ∧ req.field "Offset" = some (Value.int offsetCount) ∧ req.wellSigned := by
  have hs : (NinAuditLogProxy.getAuditLog offsetCount w).2.sent = w.sent ++ [⟨base ++ audit,
      [("Nonce", Value.str (NinCredential.getNonce w).1), ("Act", Value.str "burble"),
       ("Offset", Value.int offsetCount),
       ("Signature", Value.str
          (NinCredential.getSignature audit "burble" (NinCredential.getNonce w).1))]⟩] := by
    cases h : w.network w.sent.length <;>
      simp [NinAuditLogProxy.getAuditLog, h, NinHttpClient.result]
  exact ⟨_, hs, rfl, path_audit _, by simp [Request.field, List.lookup],
    by simp [Request.field, List.lookup],
    wellSigned_envelope audit "burble" _ "Offset" offsetCount path_audit (by decide)⟩

theorem getAuditLog_network (offsetCount : Int) (w : World) :
    (NinAuditLogProxy.getAuditLog offsetCount w).2.network = w.network := by
  cases h : w.network w.sent.length <;>
    simp [NinAuditLogProxy.getAuditLog, h, NinHttpClient.result]

theorem getAuditLog_ok (offsetCount : Int) (w : World) (s : String)
    (h : w.network w.sent.length = .ok s) :
    (NinAuditLogProxy.getAuditLog offsetCount w).1 = (strings.Split s "\n", none) := by
  simp [NinAuditLogProxy.getAuditLog, h, NinHttpClient.result]

theorem getAuditLog_error (offsetCount : Int) (w : World) (e : Err)
    (h : w.network w.sent.length = .error e) :
    (NinAuditLogProxy.getAuditLog offsetCount w).1 = ([], some e) := by
  simp [NinAuditLogProxy.getAuditLog, h, NinHttpClient.result]

theorem resetAuditLog_request (offsetCount : Int) (w : World) :
    ∃ req : Request, (NinAuditLogProxy.resetAuditLog offsetCount w).sent = w.sent ++ [req]
      ∧ req.url = base ++ audit ∧ req.path = audit
      ∧ req.field "Act" = some (Value.str "chortle")
      ∧ req.field "Offset" = some (Value.int (max offsetCount 0)) ∧ req.wellSigned := by
  have hs : (NinAuditLogProxy.resetAuditLog offsetCount w).sent = w.sent ++ [⟨base ++ audit,
      [("Nonce", Value.str (NinCredential.getNonce w).1), ("Act", Value.str "chortle"),
       ("Offset", Value.int (if offsetCount < 0 then 0 else offsetCount)),
       ("Signature", Value.str
          (NinCredential.getSignature audit "chortle" (NinCredential.getNonce w).1))]⟩] := by
    simp [NinAuditLogProxy.resetAuditLog]
  have hm : (if offsetCount < 0 then 0 else offsetCount) = max offsetCount 0 := by
    split <;> omega
  exact ⟨_, hs, rfl, path_audit _, by simp [Request.field, List.lookup],
    by simp [Request.field, List.lookup, hm],
    wellSigned_envelope audit "chortle" _ "Offset" _ path_audit (by decide)⟩

theorem resetAuditLog_network (offsetCount : Int) (w : World) :
    (NinAuditLogProxy.resetAuditLog offsetCount w).network = w.network := by
  simp [NinAuditLogProxy.resetAuditLog]

/-! ## Lemmas: the two handlers -/

theorem warmUp_requests (k : Nat) (w : World) :
    ∃ reqs : List Request, (NinTimeProxy.warmUp k w).sent = w.sent ++ reqs
      ∧ reqs.length = k ∧ (NinTimeProxy.warmUp k w).network = w.network
      ∧ ∀ q ∈ reqs, q.path = clock ∧ q.field "Act" = some (Value.str "observe")
          ∧ q.wellSigned := by
  induction k generalizing w with
  | zero => exact ⟨[], by simp [NinTimeProxy.warmUp], rfl, rfl, by simp⟩
  | succ k ih =>
    obtain ⟨req, hs, _, hp, ha, hw⟩ := clock_request w
    obtain ⟨reqs, hs2, hl, hn, hq⟩ := ih (NinTimeProxy.clock w).2
    refine ⟨req :: reqs, ?_, by simp [hl], ?_, ?_⟩
    · simp [NinTimeProxy.warmUp, hs2, hs]
    · simp [NinTimeProxy.warmUp, hn, clock_network]
    · intro q hq2
      rcases List.mem_cons.mp hq2 with h | h
      · rw [h]; exact ⟨hp, ha, hw⟩
      · exact hq q h

theorem HandleServerTime_requests (s : Schedule) (w : World) :
    ∃ (pre : List Request) (endReq : Request),
      (NinTimeProxy.HandleServerTime s w).2.sent = w.sent ++ pre ++ [endReq]
      ∧ pre.length = s.ticksBefore + s.ticksDuring + s.ticksAfter + 1
      ∧ (∀ q ∈ pre, q.wellSigned ∧ (q.field "Act" = some (Value.str "observe")
            ∨ q.field "Act" = some (Value.str "begin")))
      ∧ endReq.wellSigned ∧ endReq.field "Act" = some (Value.str "end")
      ∧ endReq.path = access
      ∧ (NinTimeProxy.HandleServerTime s w).1
          = (strings.Trim (NinHttpClient.result (w.network (w.sent.length + pre.length))).1 "\n",
              (NinHttpClient.result (w.network (w.sent.length + pre.length))).2) := by
  obtain ⟨r1, hs1, hl1, hn1, hq1⟩ := warmUp_requests s.ticksBefore w
  obtain ⟨hb1, hb2⟩ := beginEnvelope_wellSigned (NinTimeProxy.warmUp s.ticksBefore w)
  obtain ⟨r2, hs2, hl2, hn2, hq2⟩ := warmUp_requests s.ticksDuring
    (NinTimeProxy.beginEnvelope (NinTimeProxy.warmUp s.ticksBefore w)).2
  obtain ⟨r3, hs3, hl3, hn3, hq3⟩ := warmUp_requests s.ticksAfter
    (NinTimeProxy.beginPost (NinTimeProxy.beginEnvelope (NinTimeProxy.warmUp s.ticksBefore w)).1
      (NinTimeProxy.warmUp s.ticksDuring
        (NinTimeProxy.beginEnvelope (NinTimeProxy.warmUp s.ticksBefore w)).2))
  obtain ⟨e, hs4, _, hp4, ha4, hw4⟩ := end_request
    (NinTimeProxy.warmUp s.ticksAfter
      (NinTimeProxy.beginPost (NinTimeProxy.beginEnvelope (NinTimeProxy.warmUp s.ticksBefore w)).1
        (NinTimeProxy.warmUp s.ticksDuring
          (NinTimeProxy.beginEnvelope (NinTimeProxy.warmUp s.ticksBefore w)).2)))
  rw [hs3, beginPost_sent, hs2, beginEnvelope_sent, hs1] at hs4
  have hsent : (NinTimeProxy.warmUp s.ticksAfter
      (NinTimeProxy.beginPost (NinTimeProxy.beginEnvelope (NinTimeProxy.warmUp s.ticksBefore w)).1
        (NinTimeProxy.warmUp s.ticksDuring
          (NinTimeProxy.beginEnvelope (NinTimeProxy.warmUp s.ticksBefore w)).2))).sent
      = w.sent ++ (r1 ++ r2 ++ [⟨base ++ access,
          (NinTimeProxy.beginEnvelope (NinTimeProxy.warmUp s.ticksBefore w)).1⟩] ++ r3) := by
    rw [hs3, beginPost_sent, hs2, beginEnvelope_sent, hs1]; simp
  refine ⟨r1 ++ r2 ++ [⟨base ++ access,
      (NinTimeProxy.beginEnvelope (NinTimeProxy.warmUp s.ticksBefore w)).1⟩] ++ r3, e,
    ?_, ?_, ?_, hw4, ha4, hp4, ?_⟩
  · show (NinTimeProxy.end_ _).2.sent = _
    rw [hs4]; simp
  · simp [hl1, hl2, hl3]; omega
  · intro q hq
    simp only [List.mem_append, List.mem_singleton] at hq
    rcases hq with ((hq | hq) | hq) | hq
    · exact ⟨(hq1 q hq).2.2, Or.inl (hq1 q hq).2.1⟩
    · exact ⟨(hq2 q hq).2.2, Or.inl (hq2 q hq).2.1⟩
    · rw [hq]; exact ⟨hb1, Or.inr hb2⟩
    · exact ⟨(hq3 q hq).2.2, Or.inl (hq3 q hq).2.1⟩
  · show (NinTimeProxy.end_ _).1 = _
    rw [end_result, hsent, hn3, beginPost_network, hn2, beginEnvelope_network, hn1]
    simp

theorem HandleAuditLogs_requests (w : World) :
    ∃ r1 r2 r3 : Request,
      (NinAuditLogProxy.HandleAuditLogs w).2.sent = w.sent ++ [r1, r2, r3]
      ∧ r1.field "Act" = some (Value.str "") ∧ r2.field "Act" = some (Value.str "burble")
      ∧ r3.field "Act" = some (Value.str "chortle")
      ∧ r2.field "Offset" = some (Value.int (NinAuditLogProxy.getAuditBase w).1.1)
      ∧ r3.field "Offset" = some (Value.int (max (NinAuditLogProxy.resetArg
            (NinAuditLogProxy.HandleAuditLogs w).1.1 (NinAuditLogProxy.getAuditBase w).1.1) 0))
      ∧ r1.wellSigned ∧ r2.wellSigned ∧ r3.wellSigned
      ∧ (NinAuditLogProxy.HandleAuditLogs w).1.2 = none := by
  obtain ⟨r1, hs1, _, _, ha1, hw1⟩ := getAuditBase_request w
  obtain ⟨r2, hs2, _, _, ha2, ho2, hw2⟩ := getAuditLog_request
    (NinAuditLogProxy.getAuditBase w).1.1 (NinAuditLogProxy.getAuditBase w).2
  obtain ⟨r3, hs3, _, _, ha3, ho3, hw3⟩ := resetAuditLog_request
    (NinAuditLogProxy.resetArg
      (NinAuditLogProxy.getAuditLog (NinAuditLogProxy.getAuditBase w).1.1
        (NinAuditLogProxy.getAuditBase w).2).1.1 (NinAuditLogProxy.getAuditBase w).1.1)
    (NinAuditLogProxy.getAuditLog (NinAuditLogProxy.getAuditBase w).1.1
      (NinAuditLogProxy.getAuditBase w).2).2
  refine ⟨r1, r2, r3, ?_, ha1, ha2, ha3, ho2, ho3, hw1, hw2, hw3, rfl⟩
  show (NinAuditLogProxy.resetAuditLog _ _).sent = _
  rw [hs3, hs2, hs1]; simp

theorem HandleAuditLogs_network_second (w : World) :
    (NinAuditLogProxy.getAuditBase w).2.network (NinAuditLogProxy.getAuditBase w).2.sent.length
      = w.network (w.sent.length + 1) := by
  obtain ⟨r1, hs1, _⟩ := getAuditBase_request w
  rw [getAuditBase_network, hs1]; simp

/-! ## Lemmas: trimming, splitting, parsing -/

theorem trimBoth_split (f : Char → Bool) (s : List Char) :
    ∃ pre post : List Char, s = pre ++ strings.trimBoth f s ++ post
      ∧ (∀ c ∈ pre, f c = true) ∧ (∀ c ∈ post, f c = true)
      ∧ (∀ c, (strings.trimBoth f s).head? = some c → f c = false)
      ∧ (∀ c, (strings.trimBoth f s).getLast? = some c → f c = false) := by
  refine ⟨s.takeWhile f, (((s.dropWhile f).reverse).takeWhile f).reverse, ?_, ?_, ?_, ?_, ?_⟩
  · have h1 := List.takeWhile_append_dropWhile f s
    have h2 := List.takeWhile_append_dropWhile f (s.dropWhile f).reverse
    have h3 : s.dropWhile f
        = ((s.dropWhile f).reverse.dropWhile f).reverse
            ++ ((s.dropWhile f).reverse.takeWhile f).reverse := by
      rw [← List.reverse_append, h2, List.reverse_reverse]
    unfold strings.trimBoth
    rw [List.append_assoc, ← h3, h1]
  · intro c hc; exact List.mem_takeWhile_imp hc
  · intro c hc; exact List.mem_takeWhile_imp (List.mem_reverse.mp hc)
  · intro c hc
    unfold strings.trimBoth at hc
    have h2 := List.takeWhile_append_dropWhile f (s.dropWhile f).reverse
    have h3 : s.dropWhile f
        = ((s.dropWhile f).reverse.dropWhile f).reverse
            ++ ((s.dropWhile f).reverse.takeWhile f).reverse := by
      rw [← List.reverse_append, h2, List.reverse_reverse]
    have h4 : (s.dropWhile f).head? = some c := by
      rw [h3, List.head?_append, hc]; rfl
    have h5 := List.head?_dropWhile_not f s
    rw [h4] at h5
    exact h5
  · intro c hc
    unfold strings.trimBoth at hc
    rw [List.getLast?_reverse] at hc
    have h5 := List.head?_dropWhile_not f (s.dropWhile f).reverse
    rw [hc] at h5
    exact h5

/-- The result of `strings.Trim(s, "\n")`: `s` is some newlines, the result,
some newlines, and the result neither starts nor ends with a newline. -/
theorem Trim_newline (s : String) :
    ∃ k m : Nat, s.data = List.replicate k '\n' ++ (strings.Trim s "\n").data
        ++ List.replicate m '\n'
      ∧ (strings.Trim s "\n").data.head? ≠ some '\n'
      ∧ (strings.Trim s "\n").data.getLast? ≠ some '\n' := by
  obtain ⟨pre, post, h, hpre, hpost, hh, hl⟩ :=
    trimBoth_split (fun c => "\n".data.elem c) s.data
  have e1 : pre = List.replicate pre.length '\n' := by
    apply List.eq_replicate_iff.mpr
    exact ⟨rfl, fun c hc => by simpa using hpre c hc⟩
  have e2 : post = List.replicate post.length '\n' := by
    apply List.eq_replicate_iff.mpr
    exact ⟨rfl, fun c hc => by simpa using hpost c hc⟩
  refine ⟨pre.length, post.length, ?_, ?_, ?_⟩
  · rw [← e1, ← e2]; exact h
  · intro hc
    have := hh '\n' hc
    simp at this
  · intro hc
    have := hl '\n' hc
    simp at this

theorem intercalate_go_data (acc sep : String) (l : List String) :
    (String.intercalate.go acc sep l).data
      = acc.data ++ l.flatMap (fun a => sep.data ++ a.data) := by
  induction l generalizing acc with
  | nil => simp [String.intercalate.go]
  | cons a l ih => simp [String.intercalate.go, ih, String.data_append]

theorem list_intercalate_cons (sep a : List Char) (l : List (List Char)) :
    List.intercalate sep (a :: l) = a ++ l.flatMap (fun x => sep ++ x) := by
  induction l generalizing a with
  | nil => simp [List.intercalate]
  | cons b l ih =>
    have h := ih b
    simp only [List.intercalate, List.intersperse, List.flatten_cons] at h ⊢
    simp [h]

theorem string_intercalate_data (sep : String) (l : List String) :
    (sep.intercalate l).data = List.intercalate sep.data (l.map String.data) := by
  cases l with
  | nil => simp [String.intercalate, List.intercalate]
  | cons a l =>
    simp only [String.intercalate, intercalate_go_data, List.map_cons, list_intercalate_cons]
    simp [List.flatMap_map]

theorem cut_newline_nil (piece : List Char) :
    strings.cut ['\n'] [] 0 piece = [piece.reverse] := by
  simp [strings.cut]

theorem cut_newline_cons_eq (cs piece : List Char) :
    strings.cut ['\n'] ('\n' :: cs) 0 piece = piece.reverse :: strings.cut ['\n'] cs 0 [] := by
  simp [strings.cut, List.isPrefixOf]

theorem cut_newline_cons_ne (c : Char) (cs piece : List Char) (h : c ≠ '\n') :
    strings.cut ['\n'] (c :: cs) 0 piece = strings.cut ['\n'] cs 0 (c :: piece) := by
  have h2 : ¬ '\n' = c := fun e => h e.symm
  simp [strings.cut, List.isPrefixOf, h2]

theorem cut_newline_length (cs piece : List Char) :
    (strings.cut ['\n'] cs 0 piece).length = cs.count '\n' + 1 := by
  induction cs generalizing piece with
  | nil => simp [cut_newline_nil]
  | cons c cs ih =>
    by_cases h : c = '\n'
    · subst h; simp [cut_newline_cons_eq, ih]
    · rw [cut_newline_cons_ne c cs piece h, ih]
      simp [List.count_cons, h]

theorem cut_newline_intercalate (cs piece : List Char) :
    List.intercalate ['\n'] (strings.cut ['\n'] cs 0 piece) = piece.reverse ++ cs := by
  induction cs generalizing piece with
  | nil => simp [cut_newline_nil, List.intercalate]
  | cons c cs ih =>
    by_cases h : c = '\n'
    · subst h
      rw [cut_newline_cons_eq, list_intercalate_cons]
      have h0 := ih []
      cases hc : strings.cut ['\n'] cs 0 [] with
      | nil => have := cut_newline_length cs []; rw [hc] at this; simp at this
      | cons a l =>
        rw [hc, list_intercalate_cons] at h0
        simp at h0
        simp [h0]
    · rw [cut_newline_cons_ne c cs piece h, ih]; simp

theorem cut_newline_mem (cs piece : List Char) (hp : '\n' ∉ piece) :
    ∀ e ∈ strings.cut ['\n'] cs 0 piece, '\n' ∉ e := by
  induction cs generalizing piece with
  | nil => simp [cut_newline_nil]; exact hp
  | cons c cs ih =>
    by_cases h : c = '\n'
    · subst h
      intro e he
      rw [cut_newline_cons_eq] at he
      rcases List.mem_cons.mp he with he | he
      · rw [he]; simpa using hp
      · exact ih [] (by simp) e he
    · rw [cut_newline_cons_ne c cs piece h]
      apply ih
      simp [hp]
      exact fun e => h e.symm

theorem Split_newline (s : String) :
    strings.Split s "\n" = (strings.cut ['\n'] s.data 0 []).map String.mk := by
  simp [strings.Split]

/-- The entries `strings.Split(s, "\n")` returns: none contains a newline,
joined by newlines they give `s`, and there is one more than newlines in `s`. -/
theorem Split_newline_spec (s : String) :
    (∀ e ∈ strings.Split s "\n", '\n' ∉ e.data)
      ∧ "\n".intercalate (strings.Split s "\n") = s
      ∧ (strings.Split s "\n").length = s.data.count '\n' + 1 := by
  rw [Split_newline]
  refine ⟨?_, ?_, ?_⟩
  · intro e he
    obtain ⟨l, hl, rfl⟩ := List.mem_map.mp he
    exact cut_newline_mem s.data [] (by simp) l hl
  · apply String.ext
    rw [string_intercalate_data, List.map_map]
    have : (String.data ∘ String.mk) = id := by funext l; rfl
    rw [this, List.map_id]
    simpa using cut_newline_intercalate s.data []
  · simp [cut_newline_length]

theorem Atoi_range (s : String) :
    minInt ≤ (strconv.Atoi s).1 ∧ (strconv.Atoi s).1 ≤ maxInt := by
  unfold strconv.Atoi strconv.ParseInt
  split
  · simp [minInt, maxInt]
  · rename_i c cs _
    simp only
    generalize strconv.ParseUint (if c = '+' ∨ c = '-' then cs else c :: cs) = r
    split_ifs with h1 h2 h3 h4
    · simp [minInt, maxInt]
    · simp [minInt, maxInt]
    · simp [minInt, maxInt]
    · have := not_and.mp h3 h4
      simp only [minInt, maxInt]; omega
    · have := not_and.mp h2 h4
      simp only [minInt, maxInt]; omega

theorem getAuditBase_range (w : World) :
    minInt ≤ (NinAuditLogProxy.getAuditBase w).1.1
      ∧ (NinAuditLogProxy.getAuditBase w).1.1 ≤ maxInt := by
  cases h : w.network w.sent.length with
  | error e =>
    simp [NinAuditLogProxy.getAuditBase, h, NinHttpClient.result, minInt, maxInt]
  | ok body =>
    simpa [NinAuditLogProxy.getAuditBase, h, NinHttpClient.result]
      using Atoi_range (strings.TrimSpace body)

theorem wrapInt_of_range (x : Int) (h1 : minInt ≤ x) (h2 : x ≤ maxInt) : wrapInt x = x := by
  unfold wrapInt
  unfold minInt at h1
  unfold maxInt at h2
  omega

/-! ## The properties of the specification -/

/-- C1: for every url, action and nonce, `getSignature` is the standard
base64 encoding of the SHA-256 digest of the bytes of
`url ++ "\r\n" ++ act ++ "\r\n" ++ nonce ++ "\r\n" ++ "galumphing"`; it is a
function of its three arguments only. -/
theorem getSignature_spec (url act nonce : String) :
    NinCredential.getSignature url act nonce
      = base64.EncodeToString (sha256.Sum256 (utf8Bytes
          (url ++ "\r\n" ++ act ++ "\r\n" ++ nonce ++ "\r\n" ++ "galumphing"))) := by
  unfold NinCredential.getSignature fmt.Fprintf
  rw [Sprintf_signature_format]
  simp [sha256.New, sha256.digest.Write, sha256.digest.Sum, secret]

/-- C2: each of the six request builders sends one envelope, posted to
`base` followed by its path, whose `Signature` field is `getSignature` of
that path, of the envelope's own `Act` and of the envelope's own `Nonce`;
so is every request the two handlers send. -/
theorem builders_wellSigned (w : World) (offsetCount : Int) (s : Schedule) :
    (∃ req : Request, (NinTimeProxy.begin w).sent = w.sent ++ [req]
        ∧ req.url = base ++ access ∧ req.path = access
        ∧ req.field "Act" = some (Value.str "begin") ∧ req.wellSigned)
    ∧ (∃ req : Request, (NinTimeProxy.end_ w).2.sent = w.sent ++ [req]
        ∧ req.url = base ++ access ∧ req.path = access
        ∧ req.field "Act" = some (Value.str "end") ∧ req.wellSigned)
    ∧ (∃ req : Request, (NinTimeProxy.clock w).2.sent = w.sent ++ [req]
        ∧ req.url = base ++ clock ∧ req.path = clock
        ∧ req.field "Act" = some (Value.str "observe") ∧ req.wellSigned)
    ∧ (∃ req : Request, (NinAuditLogProxy.getAuditBase w).2.sent = w.sent ++ [req]
        ∧ req.url = base ++ audit ∧ req.path = audit
        ∧ req.field "Act" = some (Value.str "") ∧ req.wellSigned)
    ∧ (∃ req : Request, (NinAuditLogProxy.getAuditLog offsetCount w).2.sent = w.sent ++ [req]
        ∧ req.url = base ++ audit ∧ req.path = audit
        ∧ req.field "Act" = some (Value.str "burble") ∧ req.wellSigned)
    ∧ (∃ req : Request, (NinAuditLogProxy.resetAuditLog offsetCount w).sent = w.sent ++ [req]
        ∧ req.url = base ++ audit ∧ req.path = audit
        ∧ req.field "Act" = some (Value.str "chortle") ∧ req.wellSigned)
    ∧ (∀ q ∈ (NinTimeProxy.HandleServerTime s w).2.sent, q ∈ w.sent ∨ q.wellSigned)
    ∧ (∀ q ∈ (NinAuditLogProxy.HandleAuditLogs w).2.sent, q ∈ w.sent ∨ q.wellSigned) := by
  refine ⟨begin_request w, end_request w, clock_request w, getAuditBase_request w, ?_, ?_, ?_, ?_⟩
  · obtain ⟨r, h1, h2, h3, h4, _, h6⟩ := getAuditLog_request offsetCount w
    exact ⟨r, h1, h2, h3, h4, h6⟩
  · obtain ⟨r, h1, h2, h3, h4, _, h6⟩ := resetAuditLog_request offsetCount w
    exact ⟨r, h1, h2, h3, h4, h6⟩
  · obtain ⟨pre, e, hs, _, hq, he, _⟩ := HandleServerTime_requests s w
    intro q hm
    rw [hs] at hm
    simp only [List.mem_append, List.mem_singleton] at hm
    rcases hm with (hm | hm) | hm
    · exact Or.inl hm
    · exact Or.inr (hq q hm).1
    · rw [hm]; exact Or.inr he
  · obtain ⟨r1, r2, r3, hs, _, _, _, _, _, h1, h2, h3, _⟩ := HandleAuditLogs_requests w
    intro q hm
    rw [hs] at hm
    simp only [List.mem_append, List.mem_cons, List.mem_singleton, List.not_mem_nil,
      or_false] at hm
    rcases hm with hm | hm | hm | hm
    · exact Or.inl hm
    · rw [hm]; exact Or.inr h1
    · rw [hm]; exact Or.inr h2
    · rw [hm]; exact Or.inr h3

/-- C3 as stated fails: with base body "9223372036854775807" (the largest
`int`) and log body "a\nb", the sum `b + len(entries) - 1` does not fit an
`int`; the argument of the reset call is the least `int` and the reset request
carries `Offset` 0. -/
theorem HandleAuditLogs_success_overflow :
    (NinAuditLogProxy.getAuditBase (scripted [.ok "9223372036854775807", .ok "a\nb"])).1
        = (9223372036854775807, none)
    ∧ (scripted [.ok "9223372036854775807", .ok "a\nb"]).network 1 = .ok "a\nb"
    ∧ (NinAuditLogProxy.HandleAuditLogs (scripted [.ok "9223372036854775807", .ok "a\nb"])).1
        = (["a", "b"], none)
    ∧ NinAuditLogProxy.resetArg ["a", "b"] 9223372036854775807 = -9223372036854775808
    ∧ NinAuditLogProxy.resetArg ["a", "b"] 9223372036854775807
        ≠ 9223372036854775807 + ((["a", "b"] : List String).length : Int) - 1
    ∧ ((NinAuditLogProxy.HandleAuditLogs
          (scripted [.ok "9223372036854775807", .ok "a\nb"])).2.sent.map
        (fun r => (r.field "Act", r.field "Offset")))
        = [(some (Value.str ""), some (Value.int 0)),
           (some (Value.str "burble"), some (Value.int 9223372036854775807)),
           (some (Value.str "chortle"), some (Value.int 0))] :=
  ⟨by decide, rfl, by decide, by decide, by decide, by decide⟩

/-- C3, amended: when `getAuditBase` succeeds with base offset `b` and the log
fetch succeeds with body `s`, `HandleAuditLogs` returns the entries of `s`
and, whenever `b + len(entries) - 1` does not exceed the largest `int`, calls
`resetAuditLog` with the argument `b + len(entries) - 1`; with base body "10"
and log body "e1\ne2" it returns ["e1","e2"] and the reset request carries
`Offset` 11. -/
theorem HandleAuditLogs_success (w : World) (b : Int) (s : String)
    (hb : (NinAuditLogProxy.getAuditBase w).1 = (b, none))
    (hl : w.network (w.sent.length + 1) = .ok s) :
    (NinAuditLogProxy.HandleAuditLogs w).1 = (strings.Split s "\n", none)
    ∧ (b + ((strings.Split s "\n").length : Int) - 1 ≤ maxInt →
        (NinAuditLogProxy.HandleAuditLogs w).2
            = NinAuditLogProxy.resetAuditLog (b + ((strings.Split s "\n").length : Int) - 1)
                (NinAuditLogProxy.getAuditLog b (NinAuditLogProxy.getAuditBase w).2).2
        ∧ ∃ r1 r2 r3 : Request,
            (NinAuditLogProxy.HandleAuditLogs w).2.sent = w.sent ++ [r1, r2, r3]
            ∧ r2.field "Offset" = some (Value.int b)
            ∧ r3.field "Act" = some (Value.str "chortle")
            ∧ r3.field "Offset" = some (Value.int
                (max (b + ((strings.Split s "\n").length : Int) - 1) 0)))
    ∧ (w.network w.sent.length = .ok "10" → s = "e1\ne2" →
        (NinAuditLogProxy.HandleAuditLogs w).1 = (["e1", "e2"], none)
        ∧ ∃ r1 r2 r3 : Request,
            (NinAuditLogProxy.HandleAuditLogs w).2.sent = w.sent ++ [r1, r2, r3]
            ∧ r3.field "Act" = some (Value.str "chortle")
            ∧ r3.field "Offset" = some (Value.int 11)) := by
  have hb1 : (NinAuditLogProxy.getAuditBase w).1.1 = b := by rw [hb]
  have hlog : (NinAuditLogProxy.getAuditLog b (NinAuditLogProxy.getAuditBase w).2).1
      = (strings.Split s "\n", none) :=
    getAuditLog_ok b _ s (by rw [HandleAuditLogs_network_second]; exact hl)
  have hres : (NinAuditLogProxy.HandleAuditLogs w).1 = (strings.Split s "\n", none) := by
    simp only [NinAuditLogProxy.HandleAuditLogs, hb1, hlog]
  have hfit : b + ((strings.Split s "\n").length : Int) - 1 ≤ maxInt →
      NinAuditLogProxy.resetArg (strings.Split s "\n") b
        = b + ((strings.Split s "\n").length : Int) - 1 := by
    intro h
    have hr := getAuditBase_range w
    rw [hb1] at hr
    have hlen : (1 : Int) ≤ ((strings.Split s "\n").length : Int) := by
      rw [(Split_newline_spec s).2.2]; omega
    have hw : wrapInt (b + ((strings.Split s "\n").length : Int) - 1)
        = b + ((strings.Split s "\n").length : Int) - 1 := by
      apply wrapInt_of_range
      · unfold minInt at *; omega
      · exact h
    rw [← hw]
    unfold NinAuditLogProxy.resetArg wrapInt
    omega
  have hreq : b + ((strings.Split s "\n").length : Int) - 1 ≤ maxInt →
      ∃ r1 r2 r3 : Request,
        (NinAuditLogProxy.HandleAuditLogs w).2.sent = w.sent ++ [r1, r2, r3]
        ∧ r2.field "Offset" = some (Value.int b)
        ∧ r3.field "Act" = some (Value.str "chortle")
        ∧ r3.field "Offset" = some (Value.int
            (max (b + ((strings.Split s "\n").length : Int) - 1) 0)) := by
    intro h
    obtain ⟨r1, r2, r3, hs, _, _, ha3, ho2, ho3, _⟩ := HandleAuditLogs_requests w
    rw [hres, hb1, hfit h] at ho3
    rw [hb1] at ho2
    exact ⟨r1, r2, r3, hs, ho2, ha3, ho3⟩
  refine ⟨hres, ?_, ?_⟩
  · intro h
    refine ⟨?_, hreq h⟩
    simp only [NinAuditLogProxy.HandleAuditLogs, hb1, hlog, hfit h]
  · intro h10 hs
    subst hs
    have hb10 : (NinAuditLogProxy.getAuditBase w).1 = (10, none) := by
      have : strconv.Atoi (strings.TrimSpace "10") = (10, none) := by decide
      simp [NinAuditLogProxy.getAuditBase, h10, NinHttpClient.result, this]
    have hb' : b = 10 := by
      rw [hb10] at hb
      exact (congrArg Prod.fst hb).symm
    subst hb'
    have hsplit : strings.Split "e1\ne2" "\n" = ["e1", "e2"] := by decide
    refine ⟨by rw [hres, hsplit], ?_⟩
    obtain ⟨r1, r2, r3, hs, _, ha3, ho3⟩ := hreq (by rw [hsplit]; decide)
    refine ⟨r1, r2, r3, hs, ha3, ?_⟩
    rw [ho3, hsplit]
    decide

/-- C3 amended, at a concrete run: base body "10", log body "e1\ne2"; the sum
10 + 2 - 1 fits an `int`. -/
theorem HandleAuditLogs_success_witness :
    (NinAuditLogProxy.getAuditBase (scripted [.ok "10", .ok "e1\ne2"])).1 = (10, none)
    ∧ (scripted [.ok "10", .ok "e1\ne2"]).network
        ((scripted [.ok "10", .ok "e1\ne2"]).sent.length + 1) = .ok "e1\ne2"
    ∧ (10 : Int) + ((strings.Split "e1\ne2" "\n").length : Int) - 1 ≤ maxInt
    ∧ (NinAuditLogProxy.HandleAuditLogs (scripted [.ok "10", .ok "e1\ne2"])).1
        = (["e1", "e2"], none)
    ∧ ((NinAuditLogProxy.HandleAuditLogs (scripted [.ok "10", .ok "e1\ne2"])).2.sent.map
        (fun r => r.field "Offset"))
        = [some (Value.int 0), some (Value.int 10), some (Value.int 11)] := by
  have h := HandleAuditLogs_success (scripted [.ok "10", .ok "e1\ne2"]) 10 "e1\ne2"
    (by decide) rfl
  exact ⟨by decide, rfl, by decide, (h.2.2 rfl rfl).1, by decide⟩

/-- C4: for every integer offset, the envelope `resetAuditLog(offset)` sends
has `Act` "chortle" and `Offset` `max(offset, 0)`, which is never negative;
`resetAuditLog(-5)` sends `Offset` 0. -/
theorem resetAuditLog_clamps (offsetCount : Int) (w : World) :
    ∃ req : Request, (NinAuditLogProxy.resetAuditLog offsetCount w).sent = w.sent ++ [req]
      ∧ req.field "Act" = some (Value.str "chortle")
      ∧ req.field "Offset" = some (Value.int (max offsetCount 0))
      ∧ 0 ≤ max offsetCount 0
      ∧ (offsetCount = -5 → req.field "Offset" = some (Value.int 0)) := by
  obtain ⟨r, hs, _, _, ha, ho, _⟩ := resetAuditLog_request offsetCount w
  refine ⟨r, hs, ha, ho, le_max_right _ _, ?_⟩
  intro h
  rw [ho, h]
  rfl

/-- C5: when the exchange succeeds with body `s`, `getAuditLog` returns the
substrings of `s` between newlines, untrimmed: no entry contains a newline,
the entries joined by "\n" give `s`, their number is one more than the number
of newlines in `s`; "a\nb\nc" gives ["a","b","c"] and "" gives [""]. -/
theorem getAuditLog_entries (offsetCount : Int) (w : World) (s : String)
    (h : w.network w.sent.length = .ok s) :
    (NinAuditLogProxy.getAuditLog offsetCount w).1.2 = none
    ∧ (∀ e ∈ (NinAuditLogProxy.getAuditLog offsetCount w).1.1, '\n' ∉ e.data)
    ∧ "\n".intercalate (NinAuditLogProxy.getAuditLog offsetCount w).1.1 = s
    ∧ (NinAuditLogProxy.getAuditLog offsetCount w).1.1.length = s.data.count '\n' + 1
    ∧ (s = "a\nb\nc" → (NinAuditLogProxy.getAuditLog offsetCount w).1.1 = ["a", "b", "c"])
    ∧ (s = "" → (NinAuditLogProxy.getAuditLog offsetCount w).1.1 = [""]) := by
  rw [getAuditLog_ok offsetCount w s h]
  obtain ⟨h1, h2, h3⟩ := Split_newline_spec s
  refine ⟨rfl, h1, h2, h3, ?_, ?_⟩
  · intro hs; rw [hs]; decide
  · intro hs; rw [hs]; decide

/-- C5, at a concrete run: the body "a\nb\nc". -/
theorem getAuditLog_entries_witness :
    (scripted [.ok "a\nb\nc"]).network (scripted [.ok "a\nb\nc"]).sent.length = .ok "a\nb\nc"
    ∧ (NinAuditLogProxy.getAuditLog 0 (scripted [.ok "a\nb\nc"])).1
        = (["a", "b", "c"], none) := by
  have h := getAuditLog_entries 0 (scripted [.ok "a\nb\nc"]) "a\nb\nc" rfl
  exact ⟨rfl, Prod.ext (h.2.2.2.2.1 rfl) h.1⟩

/-- C6 as stated fails: with base offset -3 (body "-3") and a failed log
fetch, the reset request carries `Offset` 0, not -3 - 1. -/
theorem HandleAuditLogs_failed_fetch_negative_base :
    (NinAuditLogProxy.getAuditBase (scripted [.ok "-3"])).1 = (-3, none)
    ∧ (scripted [.ok "-3"]).network 1 = .error (Err.net "timeout")
    ∧ (NinAuditLogProxy.HandleAuditLogs (scripted [.ok "-3"])).1 = ([], none)
    ∧ ((NinAuditLogProxy.HandleAuditLogs (scripted [.ok "-3"])).2.sent.map
        (fun r => (r.field "Act", r.field "Offset")))
        = [(some (Value.str ""), some (Value.int 0)),
           (some (Value.str "burble"), some (Value.int (-3))),
           (some (Value.str "chortle"), some (Value.int 0))]
    ∧ (0 : Int) ≠ -3 - 1 :=
  ⟨by decide, rfl, by decide, by decide, by decide⟩

/-- C6, amended: when `getAuditBase` returns base offset `b` and the log fetch
fails, `HandleAuditLogs` returns no entries and the reset request carries
`Offset` `b - 1` for every `b ≥ 1` (the cursor moves back by one), and
`Offset` 0 for zero and for every negative `b` above the least `int`. -/
theorem HandleAuditLogs_failed_fetch (w : World) (b : Int) (e : Err)
    (hb : (NinAuditLogProxy.getAuditBase w).1.1 = b)
    (hl : w.network (w.sent.length + 1) = .error e) :
    (NinAuditLogProxy.HandleAuditLogs w).1 = ([], none)
    ∧ ∃ r1 r2 r3 : Request,
        (NinAuditLogProxy.HandleAuditLogs w).2.sent = w.sent ++ [r1, r2, r3]
        ∧ r3.field "Act" = some (Value.str "chortle")
        ∧ (1 ≤ b → r3.field "Offset" = some (Value.int (b - 1)))
        ∧ (b ≤ 0 → minInt < b → r3.field "Offset" = some (Value.int 0)) := by
  have hlog : (NinAuditLogProxy.getAuditLog b (NinAuditLogProxy.getAuditBase w).2).1
      = ([], some e) :=
    getAuditLog_error b _ e (by rw [HandleAuditLogs_network_second]; exact hl)
  have hres : (NinAuditLogProxy.HandleAuditLogs w).1 = ([], none) := by
    simp only [NinAuditLogProxy.HandleAuditLogs, hb, hlog]
  obtain ⟨r1, r2, r3, hs, _, _, ha3, _, ho3, _⟩ := HandleAuditLogs_requests w
  rw [hres, hb] at ho3
  have hr := getAuditBase_range w
  rw [hb] at hr
  refine ⟨hres, r1, r2, r3, hs, ha3, ?_, ?_⟩
  · intro h1
    have : max (NinAuditLogProxy.resetArg [] b) 0 = b - 1 := by
      unfold NinAuditLogProxy.resetArg wrapInt
      unfold minInt maxInt at hr
      simp only [List.length_nil]
      omega
    rw [ho3, this]
  · intro h0 hmin
    have : max (NinAuditLogProxy.resetArg [] b) 0 = 0 := by
      unfold NinAuditLogProxy.resetArg wrapInt
      unfold minInt at hmin
      simp only [List.length_nil]
      omega
    rw [ho3, this]

/-- C6 amended, at a concrete run: base body "10", failed log fetch. -/
theorem HandleAuditLogs_failed_fetch_witness :
    (NinAuditLogProxy.getAuditBase (scripted [.ok "10"])).1.1 = 10
    ∧ (scripted [.ok "10"]).network ((scripted [.ok "10"]).sent.length + 1)
        = .error (Err.net "timeout")
    ∧ (NinAuditLogProxy.HandleAuditLogs (scripted [.ok "10"])).1 = ([], none)
    ∧ ((NinAuditLogProxy.HandleAuditLogs (scripted [.ok "10"])).2.sent.map
        (fun r => r.field "Offset"))
        = [some (Value.int 0), some (Value.int 10), some (Value.int 9)] := by
  have h := HandleAuditLogs_failed_fetch (scripted [.ok "10"]) 10 (Err.net "timeout")
    (by decide) rfl
  exact ⟨by decide, rfl, h.1, by decide⟩

/-- C7: whatever the outcomes of the base-offset and log-fetch exchanges,
`HandleAuditLogs` issues exactly three requests, the base-offset request, the
log fetch, then one reset request, and returns a nil error. -/
theorem HandleAuditLogs_always_resets (w : World) :
    (NinAuditLogProxy.HandleAuditLogs w).1.2 = none
    ∧ ∃ r1 r2 r3 : Request,
        (NinAuditLogProxy.HandleAuditLogs w).2.sent = w.sent ++ [r1, r2, r3]
        ∧ r1.field "Act" = some (Value.str "")
        ∧ r2.field "Act" = some (Value.str "burble")
        ∧ r3.field "Act" = some (Value.str "chortle") := by
  obtain ⟨r1, r2, r3, hs, h1, h2, h3, _⟩ := HandleAuditLogs_requests w
  exact ⟨rfl, r1, r2, r3, hs, h1, h2, h3⟩

/-- C8 as stated fails: on the body "\n42", which has no trailing newline,
`end` returns "42": the leading newline is removed as well. -/
theorem end_trims_leading_newline :
    (scripted [.ok "\n42"]).network (scripted [.ok "\n42"]).sent.length = .ok "\n42"
    ∧ (NinTimeProxy.end_ (scripted [.ok "\n42"])).1 = ("42", none)
    ∧ specServerTime "\n42" = "\n42"
    ∧ (NinTimeProxy.end_ (scripted [.ok "\n42"])).1.1 ≠ specServerTime "\n42" :=
  ⟨rfl, by decide, by decide, by decide⟩

/-- C8, amended: for every response body `s` of the `end` request, the server
time `end` (and hence `HandleServerTime`) returns is `strings.Trim(s, "\n")`:
`s` without all its leading and all its trailing newlines, the part between
unchanged; with body "42\n" the value is "42". -/
theorem end_server_time (w : World) (s : String)
    (h : w.network w.sent.length = .ok s) :
    (NinTimeProxy.end_ w).1 = (strings.Trim s "\n", none)
    ∧ (∃ k m : Nat, s.data = List.replicate k '\n' ++ (NinTimeProxy.end_ w).1.1.data
          ++ List.replicate m '\n'
        ∧ (NinTimeProxy.end_ w).1.1.data.head? ≠ some '\n'
        ∧ (NinTimeProxy.end_ w).1.1.data.getLast? ≠ some '\n')
    ∧ (s = "42\n" → (NinTimeProxy.end_ w).1.1 = "42")
    ∧ (∀ (sc : Schedule) (w0 : World),
        w0.network (w0.sent.length + (sc.ticksBefore + sc.ticksDuring + sc.ticksAfter + 1))
          = .ok s →
        (NinTimeProxy.HandleServerTime sc w0).1 = (strings.Trim s "\n", none)) := by
  have hres : (NinTimeProxy.end_ w).1 = (strings.Trim s "\n", none) := by
    rw [end_result, h]; rfl
  refine ⟨hres, ?_, ?_, ?_⟩
  · rw [hres]; exact Trim_newline s
  · intro hs; rw [hres, hs]; decide
  · intro sc w0 h0
    obtain ⟨pre, e, _, hl, _, _, _, _, hr⟩ := HandleServerTime_requests sc w0
    rw [hr, hl, h0]; rfl

/-- C8 amended, at a concrete run: the body "42\n". -/
theorem end_server_time_witness :
    (scripted [.ok "42\n"]).network (scripted [.ok "42\n"]).sent.length = .ok "42\n"
    ∧ (NinTimeProxy.end_ (scripted [.ok "42\n"])).1 = ("42", none) := by
  have h := end_server_time (scripted [.ok "42\n"]) "42\n" rfl
  exact ⟨rfl, Prod.ext (h.2.2.1 rfl) (congrArg Prod.snd h.1)⟩

/-- C9: under every schedule and whatever the outcomes of the observe and
begin exchanges, `HandleServerTime` makes exactly one `end` request, the last
request of the run, and returns the value and the error of that call: the
trimmed body and no error when the exchange succeeds, the error when it
fails; the result is the same for any two networks that treat the `end`
exchange alike. -/
theorem HandleServerTime_result (s : Schedule) (w : World) :
    (∃ (pre : List Request) (endReq : Request),
        (NinTimeProxy.HandleServerTime s w).2.sent = w.sent ++ pre ++ [endReq]
        ∧ pre.length = s.ticksBefore + s.ticksDuring + s.ticksAfter + 1
        ∧ (∀ q ∈ pre, q.field "Act" ≠ some (Value.str "end"))
        ∧ endReq.field "Act" = some (Value.str "end"))
    ∧ (∀ body, w.network (w.sent.length + (s.ticksBefore + s.ticksDuring + s.ticksAfter + 1))
          = .ok body →
        (NinTimeProxy.HandleServerTime s w).1 = (strings.Trim body "\n", none))
    ∧ (∀ e, w.network (w.sent.length + (s.ticksBefore + s.ticksDuring + s.ticksAfter + 1))
          = .error e →
        (NinTimeProxy.HandleServerTime s w).1 = ("", some e))
    ∧ ((NinTimeProxy.HandleServerTime s w).1.2 ≠ none ↔
        ∃ e, w.network (w.sent.length + (s.ticksBefore + s.ticksDuring + s.ticksAfter + 1))
          = .error e)
    ∧ (∀ net : Nat → Except Err String,
        net (w.sent.length + (s.ticksBefore + s.ticksDuring + s.ticksAfter + 1))
          = w.network (w.sent.length + (s.ticksBefore + s.ticksDuring + s.ticksAfter + 1)) →
        (NinTimeProxy.HandleServerTime s { w with network := net }).1
          = (NinTimeProxy.HandleServerTime s w).1) := by
  obtain ⟨pre, e, hs, hl, hq, _, ha, _, hr⟩ := HandleServerTime_requests s w
  rw [hl] at hr
  have htrim : strings.Trim "" "\n" = "" := by decide
  refine ⟨⟨pre, e, hs, hl, ?_, ha⟩, ?_, ?_, ?_, ?_⟩
  · intro q hm hend
    rcases (hq q hm).2 with h | h
    · rw [h] at hend; exact absurd hend (by decide)
    · rw [h] at hend; exact absurd hend (by decide)
  · intro body hb
    rw [hr, hb]; rfl
  · intro err he
    rw [hr, he]
    show (strings.Trim "" "\n", some err) = ("", some err)
    rw [htrim]
  · rw [hr]
    cases hn : w.network (w.sent.length + (s.ticksBefore + s.ticksDuring + s.ticksAfter + 1)) with
    | ok body => simp [NinHttpClient.result]
    | error err => simp [NinHttpClient.result]
  · intro net hnet
    obtain ⟨pre2, e2, _, hl2, _, _, _, _, hr2⟩ :=
      HandleServerTime_requests s { w with network := net }
    rw [hl2] at hr2
    rw [hr2, hr]
    show (strings.Trim (NinHttpClient.result (net _)).1 "\n", (NinHttpClient.result (net _)).2) = _
    rw [hnet]

/-- C10: for every length `L ≥ 0` and every state of the generator,
`getRandomString(L)` returns exactly `L` characters, each one of the 62
characters of `charset`; every nonce of `getNonce` has exactly 18 characters,
all alphanumeric. -/
theorem getRandomString_spec (L : Nat) (w : World) :
    (NinRandom.getRandomString L w).1.length = L
    ∧ (∀ c ∈ (NinRandom.getRandomString L w).1.data, c ∈ charset.data)
    ∧ charset.length = 62
    ∧ (NinCredential.getNonce w).1.length = 18
    ∧ (∀ c ∈ (NinCredential.getNonce w).1.data, c ∈ charset.data ∧ c.isAlphanum = true) := by
  refine ⟨?_, ?_, charset_length, ?_, ?_⟩
  · simp [NinRandom.getRandomString, String.length, fill_length]
  · exact fill_mem L _
  · simp [NinCredential.getNonce, NinRandom.getRandomString, String.length, fill_length]
  · intro c hc
    have := fill_mem 18 w.seededRand c hc
    exact ⟨this, charset_alphanum c this⟩

end Server
